import Mathlib

/-!
# Verification of the Olypsys style linter (`lint.py`)

A shallow embedding of the linter's rule engine in Lean 4.

Modelling conventions:
* Python strings are `List Char`; Python's per-character case functions are
  modelled by Lean's ASCII `Char.toLower`/`Char.toUpper`/`Char.isLower`/`Char.isUpper`
  (every string appearing in the linter's rules is ASCII).
* File content is the text as produced by reading the file in text mode; the same
  content is used for the line iteration and for the whole-file string, matching
  the two reads in `check_file`.
* Code that can raise an exception (`line.split("m_")[1][0]` can raise
  `IndexError`) is modelled with `Option`: `none` is an uncaught exception.
* `check_file` resolves its path argument only through `os.path.basename` and
  `get_file_type`; the embedding of `check_file` therefore takes the basename and
  the resolved `FileType` as arguments, together with the current year
  (`date.today().year` in the source) and the file content.  `get_file_type`
  itself is embedded separately on full paths.
* File discovery (`_find_files_by_extension`, `find_*_files`) and the CLI entry
  block are external collaborators of the rule engine and are not embedded.
-/

/-- Shorthand: the character list of a string literal. -/
def cs (s : String) : List Char := s.toList

/-- `FileType` from `lint.py`: the closed enumeration of supported kinds. -/
inductive FileType : Type
  | CPP
  | HPP
  | JAVA
  | KOTLIN
  | XML
  | SWIFT
deriving DecidableEq, Repr

/-- Python `s.lower()` (ASCII model). -/
def pyLower (s : List Char) : List Char := s.map Char.toLower

/-- Python `s.upper()` (ASCII model). -/
def pyUpper (s : List Char) : List Char := s.map Char.toUpper

/-- Python `s.endswith(suffix)`. -/
def pyEndsWith (s suffix : List Char) : Bool := List.isSuffixOf suffix s

/-- Python `s.startswith(prefix)`. -/
def pyStartsWith (s pre : List Char) : Bool := List.isPrefixOf pre s

/-- Python `sub in s` (substring containment). -/
def hasSub (pat : List Char) : List Char → Bool
  | [] => pat.isPrefixOf []
  | c :: t => pat.isPrefixOf (c :: t) || hasSub pat t

/-- Python whitespace, as stripped by `str.strip()` (ASCII model). -/
def pyIsSpace (c : Char) : Bool :=
  c = ' ' || c = '\t' || c = '\n' || c = '\r' || c = '\x0b' || c = '\x0c'

/-- Python `s.strip()`. -/
def pyStrip (s : List Char) : List Char :=
  ((s.dropWhile pyIsSpace).reverse.dropWhile pyIsSpace).reverse

/-- `is_CamelCase` from `lint.py` (lines 65-75), translated literally, inverted
comparisons included: `is_all_lower` is Python's `s != s.lower()`, `is_all_upper`
is `s != s.upper()`, `has_underscores` is `"_" not in s`.  The final indexing
`s[0]` is only reached when `"_" in s`, so `s` is nonempty there; the `[]` branch
is unreachable. -/
def is_CamelCase (s : List Char) : Bool :=
  let is_all_lower : Bool := s ≠ pyLower s
  let is_all_upper : Bool := s ≠ pyUpper s
  let has_underscores : Bool := !(s.contains '_')
  if is_all_lower || is_all_upper || has_underscores then false
  else
    match s with
    | [] => false
    | c :: _ => !c.isLower

/-- `is_snake_case` from `lint.py` (lines 78-89), translated literally:
`is_all_lower` is Python's `s != s.lower()`. -/
def is_snake_case (s : List Char) : Bool :=
  let is_all_lower : Bool := s ≠ pyLower s
  let has_underscores : Bool := s.contains '_'
  if is_all_lower then
    if s.length > 25 then
      if has_underscores then true else false
    else true
  else false

/-- `get_file_type` from `lint.py` (lines 92-105).  The `ValueError` raised on
an unknown extension is modelled as `none`. -/
def get_file_type (file_path : List Char) : Option FileType :=
  if pyEndsWith (pyLower file_path) (cs ".cpp") || pyEndsWith (pyLower file_path) (cs ".cxx") then
    some FileType.CPP
  else if pyEndsWith (pyLower file_path) (cs ".hpp") then some FileType.HPP
  else if pyEndsWith (pyLower file_path) (cs ".java") then some FileType.JAVA
  else if pyEndsWith (pyLower file_path) (cs ".kt") || pyEndsWith (pyLower file_path) (cs ".kts") then
    some FileType.KOTLIN
  else if pyEndsWith (pyLower file_path) (cs ".xml") then some FileType.XML
  else if pyEndsWith (pyLower file_path) (cs ".swift") then some FileType.SWIFT
  else none

/-- The first step of `check_file_path`: the CamelCase filename diagnostic
(`lint.py` lines 112-115).  One violation is counted when the basename is not
the literal `main.cpp` and `is_CamelCase` returns true. -/
def camelNameErrors (filename : List Char) : Nat :=
  if filename ≠ cs "main.cpp" ∧ is_CamelCase filename = true then 1 else 0

/-- `check_file_path` from `lint.py` (lines 108-119), applied to the basename. -/
def check_file_path (filename : List Char) : Nat :=
  camelNameErrors filename
  + (if filename.contains ' ' || filename.contains '_' || filename.contains '-' then 1 else 0)

/-- Python file line iteration: split the content after every newline, keeping
the newline on each line; a final segment without a newline is its own line;
empty content yields no lines. -/
def splitLines : List Char → List (List Char)
  | [] => []
  | c :: t =>
    if c = '\n' then ['\n'] :: splitLines t
    else
      match splitLines t with
      | [] => [[c]]
      | l :: ls => (c :: l) :: ls

/-- Split `s` at its leftmost occurrence of `"m_"`: `some (before, after)` when
an occurrence exists, where `after` starts right after that occurrence. -/
def breakMU : List Char → Option (List Char × List Char)
  | [] => none
  | c :: t =>
    if c = 'm' ∧ t.head? = some '_' then some ([], t.tail)
    else (breakMU t).map (fun p => (c :: p.1, p.2))

/-- Fuel-driven worker for `splitMU`; the fuel (initially the length of the
input, more than the number of occurrences of `"m_"`) makes the recursion
structural. -/
def splitMUFuel : Nat → List Char → List (List Char)
  | 0, s => [s]
  | fuel + 1, s =>
    match breakMU s with
    | none => [s]
    | some (pre, post) => pre :: splitMUFuel fuel post

/-- Python `s.split("m_")`: the chunks strictly between consecutive
(non-overlapping, leftmost-first) occurrences of `"m_"`. -/
def splitMU (s : List Char) : List (List Char) := splitMUFuel s.length s

/-- The member-naming rule of `check_file` (`lint.py` lines 145-148):
`if "m_" in line and line.split("m_")[1][0].isupper()`.  The result is the
number of diagnostics this rule emits on the line, or `none` for the
`IndexError` raised by `[0]` when the chunk after the first `"m_"` is empty.
When `"m_"` occurs in the line the split has at least two fields, so the
`getD` default is never used. -/
def muRule (line : List Char) : Option Nat :=
  if hasSub (cs "m_") line then
    match ((splitMU line).getD 1 []).head? with
    | none => none
    | some c => some (if c.isUpper then 1 else 0)
  else some 0

/-- The Kotlin/Swift trailing-semicolon rule (`lint.py` lines 180-184). -/
def semicolonRule (ft : FileType) (line : List Char) : Nat :=
  if (ft = FileType.KOTLIN ∨ ft = FileType.SWIFT) ∧ pyEndsWith line (cs ";") then 1 else 0

/-- The regex `[A-Za-z0-9]\x7b` of `character_brace_pattern` (`lint.py` line
127): some alphanumeric character immediately followed by an opening brace. -/
def hasCharBrace : List Char → Bool
  | c :: '\x7b' :: t => c.isAlphanum || hasCharBrace ('\x7b' :: t)
  | _ :: t => hasCharBrace t
  | [] => false

/-- The per-line rules of `check_file` (`lint.py` lines 130-233), in source
order, summed into the number of diagnostics emitted on this line; `none` is
the `IndexError` of the member-naming rule. -/
def lineErrors (ft : FileType) (disable_line_length_checks : Bool) (line : List Char) :
    Option Nat :=
  match muRule line with
  | none => none
  | some muCount => some (
      (if !disable_line_length_checks then (if line.length > 100 then 1 else 0) else 0)
    + (if line.contains '\t' then 1 else 0)
    + (if pyEndsWith line (cs " ") || pyEndsWith line (cs " \n") || pyEndsWith line (cs " \r")
        then 1 else 0)
    + muCount
    + (if hasSub (cs "namespace ") line && line.contains '\x7b' then 1 else 0)
    + (if hasSub (cs "\x7d; // namespace") line then 1 else 0)
    + (if hasSub (cs " ;") line then 1 else 0)
    + (if ft = FileType.CPP ∨ ft = FileType.HPP then
        (if hasSub (cs "struct ") line && line.contains '\x7b' then 1 else 0)
        + (if hasSub (cs "class ") line && line.contains '\x7b' then 1 else 0)
        + (if hasSub (cs "enum class ") line && line.contains '\x7b' then 1 else 0)
      else 0)
    + (if hasSub (cs "\x7delse") line then 1 else 0)
    + (if ft = FileType.KOTLIN ∨ ft = FileType.JAVA then
        (if pyStartsWith (pyStrip line) (cs "//import")
            || pyStartsWith (pyStrip line) (cs "// import") then 1 else 0)
      else 0)
    + semicolonRule ft line
    + (if ft = FileType.KOTLIN then
        (if hasSub (cs "func  ") line then 1 else 0)
        + (if hasSub (cs "if  ") line then 1 else 0)
        + (if hasSub (cs "throw  ") line then 1 else 0)
        + (if hasSub (cs "let  ") line then 1 else 0)
      else 0)
    + (if hasSub (cs "else\x7b") line then 1 else 0)
    + (if hasSub (cs " if(") line then 1 else 0)
    + (if hasSub (cs " for(") line then 1 else 0)
    + (if hasSub (cs " while(") line then 1 else 0)
    + (if hasSub (cs " switch(") line then 1 else 0)
    + (if ft = FileType.CPP ∨ ft = FileType.HPP then
        (if hasSub (cs ") \x7b") line || hasSub (cs ")\x7b") line then 1 else 0)
      else 0)
    + (if ft = FileType.JAVA ∨ ft = FileType.KOTLIN then
        (if hasSub (cs ")\x7b") line then 1 else 0)
        + (if hasSub (cs ")  \x7b") line then 1 else 0)
        + (if hasSub (cs "let  \x7b") line then 1 else 0)
      else 0)
    + (if ft = FileType.JAVA ∨ ft = FileType.KOTLIN ∨ ft = FileType.SWIFT then
        (if hasCharBrace line then 1 else 0)
      else 0))

/-- Sum of `lineErrors` over the lines of a file; `none` as soon as one line
raises. -/
def lineErrorsSum (ft : FileType) (dis : Bool) : List (List Char) → Option Nat
  | [] => some 0
  | l :: ls =>
    match lineErrors ft dis l, lineErrorsSum ft dis ls with
    | some a, some b => some (a + b)
    | _, _ => none

/-- The missing-final-newline check (`lint.py` lines 240-243). -/
def noNewlineErrors (content : List Char) : Nat :=
  if content.length > 0 ∧ content.getLast? ≠ some '\n' then 1 else 0

/-- Index of the first occurrence of `"\n\n\n"` in `s` (Python
`s.index("\n\n\n")`, used under the containment guard). -/
def findTripleNL : List Char → Option Nat
  | [] => none
  | c :: t =>
    if (cs "\n\n\n").isPrefixOf (c :: t) then some 0
    else (findTripleNL t).map (fun i => i + 1)

/-- The three-consecutive-newlines check (`lint.py` lines 245-249): `some n`
when the diagnostic fires, where `n` is the reported line number
(`file_str.count("\n", 0, file_str.index("\n\n\n")) + 1`). -/
def blankRun (content : List Char) : Option Nat :=
  if hasSub (cs "\n\n\n") content then
    match findTripleNL content with
    | some i => some ((content.take i).count '\n' + 1)
    | none => none
  else none

/-- The violation count contributed by the three-consecutive-newlines check. -/
def blankRunErrors (content : List Char) : Nat :=
  if (blankRun content).isSome then 1 else 0

/-- The expected header for C++ test files (`lint.py` lines 257-261). -/
def testHeader (year : Nat) : List Char :=
  cs "///\n/// Copyright (c) " ++ cs (toString year)
    ++ cs " Olypsys Technologies Ltd. All rights reserved.\n///"

/-- The expected header for non-test, non-`main.cpp` C++ source files
(`lint.py` lines 268-275); `header_file_name` is `filename[:-4] + ".hpp"`. -/
def cppSeeHeader (year : Nat) (filename : List Char) : List Char :=
  cs "///\n/// Copyright (c) " ++ cs (toString year)
    ++ cs " Olypsys Technologies Ltd. All rights reserved.\n///\n/// See "
    ++ (filename.take (filename.length - 4) ++ cs ".hpp") ++ cs " for documentation.\n///"

/-- The expected header for `.hpp` files and for `main.cpp` (`lint.py` lines
277-284 and 292-299). -/
def hppHeader (year : Nat) (filename : List Char) : List Char :=
  cs "///\n/// Copyright (c) " ++ cs (toString year)
    ++ cs " Olypsys Technologies Ltd. All rights reserved.\n///\n/// \\file "
    ++ filename ++ cs "\n///\n/// \\brief"

/-- The expected header for Java/Kotlin files (`lint.py` lines 307-314). -/
def javaHeader (year : Nat) : List Char :=
  cs "///\n/// Copyright (c) " ++ cs (toString year)
    ++ cs " Olypsys Technologies Ltd. All rights reserved.\n///\n/// This file is part of the Olypsys Android App.\n///\n"

/-- The expected header for Swift files (`lint.py` lines 322-328). -/
def swiftHeader (year : Nat) : List Char :=
  cs "///\n/// Copyright (c) " ++ cs (toString year)
    ++ cs " Olypsys Technologies Ltd. All rights reserved.\n///\n/// This file is part of the Olypsys iOS App.\n///\n"

/-- The copyright-header stage of `check_file` (`lint.py` lines 251-335):
the number of header diagnostics emitted for this file. -/
def headerErrors (ft : FileType) (filename : List Char) (year : Nat) (content : List Char) :
    Nat :=
  let is_cpp_tests_file : Prop := pyStartsWith filename (cs "Test") = true ∧ ft = FileType.CPP
  (if is_cpp_tests_file then
    (if ¬ pyStartsWith content (testHeader year) = true then 1 else 0)
  else 0)
  + (if ¬ is_cpp_tests_file ∧ ft = FileType.CPP then
      (if filename = cs "main.cpp" then
        (if ¬ pyStartsWith content (hppHeader year filename) = true then 1 else 0)
      else
        (if ¬ pyStartsWith content (cppSeeHeader year filename) = true then 1 else 0))
    else 0)
  + (if ft = FileType.HPP then
      (if ¬ pyStartsWith content (hppHeader year filename) = true then 1 else 0)
    else 0)
  + (if ft = FileType.JAVA ∨ ft = FileType.KOTLIN then
      (if ¬ pyStartsWith content (javaHeader year) = true then 1 else 0)
    else 0)
  + (if ft = FileType.SWIFT then
      (if ¬ pyStartsWith content (swiftHeader year) = true then 1 else 0)
    else 0)

/-- `check_file` from `lint.py` (lines 122-337), as a function of the resolved
file type, the basename, the current year, the `disable_line_length_checks`
flag and the file content.  `none` models an uncaught exception from the line
loop. -/
def check_file (ft : FileType) (filename : List Char) (year : Nat)
    (disable_line_length_checks : Bool) (content : List Char) : Option Nat :=
  match lineErrorsSum ft disable_line_length_checks (splitLines content) with
  | none => none
  | some lineSum =>
    some (check_file_path filename + lineSum + noNewlineErrors content
      + blankRunErrors content + headerErrors ft filename year content)

/-! ## Spec-side definitions

These definitions follow the specification's wording (not the source), for
comparison with the source-derived definitions above. -/

/-- Modelled from the spec's words: `isUpperCamelCase(s)` is true iff `s` is
not entirely lowercase, not entirely uppercase, contains no underscore, and
its first character is uppercase. -/
def specUpperCamelCase (s : List Char) : Bool :=
  (s ≠ pyLower s : Bool) && (s ≠ pyUpper s : Bool) && !(s.contains '_')
    && (match s with
        | [] => false
        | c :: _ => c.isUpper)

/-- Spec-side: the substring `"m_"` immediately followed by an uppercase
letter occurs somewhere in the line. -/
def specMUOccurs (line : List Char) : Prop :=
  ∃ pre c post, line = pre ++ 'm' :: '_' :: c :: post ∧ c.isUpper = true

/-- Spec-side: the three-character substring `"\n\n\n"` starts at index `i`
of the content. -/
def tripleNLAt (content : List Char) (i : Nat) : Prop :=
  cs "\n\n\n" <+: content.drop i

instance (content : List Char) (i : Nat) : Decidable (tripleNLAt content i) :=
  show Decidable (cs "\n\n\n" <+: content.drop i) from inferInstance

/-! ## Helper lemmas -/

theorem hasSub_iff_exists (pat s : List Char) :
    hasSub pat s = true ↔ ∃ i, pat <+: s.drop i := by
  induction s with
  | nil =>
    simp only [hasSub, List.isPrefixOf_iff_prefix, List.drop_nil]
    exact ⟨fun h => ⟨0, h⟩, fun ⟨_, h⟩ => h⟩
  | cons c t ih =>
    simp only [hasSub, Bool.or_eq_true, List.isPrefixOf_iff_prefix, ih]
    constructor
    · rintro (h | ⟨i, hi⟩)
      · exact ⟨0, h⟩
      · exact ⟨i + 1, hi⟩
    · rintro ⟨i, hi⟩
      cases i with
      | zero => exact Or.inl hi
      | succ j => exact Or.inr ⟨j, hi⟩

theorem hasSub_cons_false {pat : List Char} {c : Char} {t : List Char}
    (h : hasSub pat (c :: t) = false) : hasSub pat t = false := by
  simp only [hasSub, Bool.or_eq_false_iff] at h
  exact h.2

theorem singleton_isPrefixOf_iff (a : Char) (l : List Char) :
    [a].isPrefixOf l = true ↔ l.head? = some a := by
  cases l with
  | nil => simp [List.isPrefixOf]
  | cons c t =>
    show (a == c && List.isPrefixOf [] t) = true ↔ some c = some a
    simp only [List.isPrefixOf, Bool.and_true, beq_iff_eq, Option.some.injEq]
    exact eq_comm

theorem pyEndsWith_last_iff (line : List Char) (a : Char) :
    pyEndsWith line [a] = true ↔ line.getLast? = some a := by
  show List.isSuffixOf [a] line = true ↔ _
  rw [List.isSuffixOf, List.reverse_cons, List.reverse_nil, List.nil_append,
    singleton_isPrefixOf_iff, List.head?_reverse]

/-! ## C1: the CamelCase predicate -/

/-- C1: the claim states the truth condition of `isUpperCamelCase` and in
particular `isUpperCamelCase("FooBar") = true`.  The source predicate
`is_CamelCase` (its comparisons are inverted) returns `false` on `"FooBar"`,
even though `"FooBar"` satisfies the spec's truth condition; it also returns
`false` on the three examples the spec maps to `false`.  This evaluates the
source predicate at those inputs. -/
theorem c1_camel_predicate_eval :
    is_CamelCase (cs "FooBar") = false ∧ specUpperCamelCase (cs "FooBar") = true
  ∧ is_CamelCase (cs "foobar") = false ∧ is_CamelCase (cs "FOOBAR") = false
  ∧ is_CamelCase (cs "Foo_Bar") = false := by
  decide

/-! ## C2: the filename-convention CamelCase diagnostic -/

/-- C2: the claim states the `FileName.NotCamelCase` diagnostic is emitted
exactly when the basename fails `isUpperCamelCase`.  The basename
`"foobar.kt"` fails the spec predicate, yet the source emits no diagnostic
for it (the source fires the diagnostic when `is_CamelCase` returns `true`,
and its `is_CamelCase` returns `false` on `"foobar.kt"`). -/
theorem c2_filename_check_eval :
    specUpperCamelCase (cs "foobar.kt") = false
  ∧ camelNameErrors (cs "foobar.kt") = 0
  ∧ check_file_path (cs "foobar.kt") = 0 := by
  decide

/-! ## C3: totality of the per-file check -/

/-- C3: the claim states the per-file check never raises for any content of a
recognized kind.  A Kotlin file `Foo.kt` whose content is the two characters
`m_` (no trailing newline) makes `line.split("m_")[1][0]` raise `IndexError`
in the member-naming rule, modelled here by `none`. -/
theorem c3_check_file_crash_eval :
    check_file FileType.KOTLIN (cs "Foo.kt") 2026 true (cs "m_") = none
  ∧ muRule (cs "m_") = none := by
  decide

/-! ## C8: the snake-case predicate -/

/-- C8: the claim states `isLongSnakeCase("abc") = true` and
`isLongSnakeCase("a_"*13) = true`.  The source predicate `is_snake_case`
(its all-lowercase comparison is inverted) returns `false` on both, and
`false` on `"a"*26` as the claim says. -/
theorem c8_snake_predicate_eval :
    is_snake_case (cs "abc") = false
  ∧ is_snake_case (List.replicate 26 'a') = false
  ∧ is_snake_case (cs "a_a_a_a_a_a_a_a_a_a_a_a_a_") = false := by
  decide

/-! ## C4: the Kotlin/Swift trailing-semicolon rule -/

/-- C4: for every line whose literal last character (before any trimming) is a
semicolon, the semicolon rule emits exactly one diagnostic when the file kind
is Kotlin or Swift; for a C source file it emits zero on every line, and on
lines not ending in a semicolon it emits zero for every kind. -/
theorem c4_semicolon_rule (line : List Char) :
    (line.getLast? = some ';' →
      semicolonRule FileType.KOTLIN line = 1 ∧ semicolonRule FileType.SWIFT line = 1)
  ∧ semicolonRule FileType.CPP line = 0
  ∧ (line.getLast? ≠ some ';' →
      semicolonRule FileType.KOTLIN line = 0 ∧ semicolonRule FileType.SWIFT line = 0) := by
  refine ⟨fun h => ?_, ?_, fun h => ?_⟩
  · have hb : pyEndsWith line (cs ";") = true := (pyEndsWith_last_iff line ';').mpr h
    constructor <;> simp [semicolonRule, hb]
  · simp [semicolonRule]
  · have hb : pyEndsWith line (cs ";") = false := by
      cases hpe : pyEndsWith line (cs ";") with
      | false => rfl
      | true => exact absurd ((pyEndsWith_last_iff line ';').mp hpe) h
    constructor <;> simp [semicolonRule, hb]

/-- Witness for C4 at the Kotlin line `val x = 1;`. -/
theorem c4_semicolon_rule_witness :
    semicolonRule FileType.KOTLIN (cs "val x = 1;") = 1
  ∧ semicolonRule FileType.CPP (cs "val x = 1;") = 0 :=
  ⟨((c4_semicolon_rule (cs "val x = 1;")).1 (by decide)).1,
    (c4_semicolon_rule (cs "val x = 1;")).2.1⟩

/-! ## C5: the copyright-header check for C headers -/

theorem headerErrors_hpp (filename : List Char) (year : Nat) (content : List Char) :
    headerErrors FileType.HPP filename year content =
      if (hppHeader year filename).isPrefixOf content = true then 0 else 1 := by
  simp only [headerErrors, pyStartsWith]
  by_cases h : (hppHeader year filename).isPrefixOf content = true <;> simp [h]

/-- C5: for a C header file the header check emits zero diagnostics iff the
first `length B` characters of the content equal the expected banner `B`
(`hppHeader year filename`); a mismatching prefix yields exactly one
diagnostic; changing any single character within the banner-length prefix of a
passing content yields exactly one diagnostic; and content differences beyond
that prefix never affect the check. -/
theorem c5_hpp_header (year : Nat) (filename content : List Char) :
    (headerErrors FileType.HPP filename year content = 0 ↔
      content.take (hppHeader year filename).length = hppHeader year filename)
  ∧ (content.take (hppHeader year filename).length ≠ hppHeader year filename →
      headerErrors FileType.HPP filename year content = 1)
  ∧ (∀ j c, j < (hppHeader year filename).length →
      content.take (hppHeader year filename).length = hppHeader year filename →
      content[j]? ≠ some c →
      headerErrors FileType.HPP filename year (content.set j c) = 1)
  ∧ (∀ content2 : List Char,
      content.take (hppHeader year filename).length =
        content2.take (hppHeader year filename).length →
      headerErrors FileType.HPP filename year content =
        headerErrors FileType.HPP filename year content2) := by
  have key : ∀ c2 : List Char,
      (hppHeader year filename).isPrefixOf c2 = true ↔
        c2.take (hppHeader year filename).length = hppHeader year filename := by
    intro c2
    rw [ List.isPrefixOf_iff_prefix, List.prefix_iff_eq_take, eq_comm]
  refine ⟨?_, ?_, ?_, ?_⟩
  · rw [headerErrors_hpp]
    by_cases h : (hppHeader year filename).isPrefixOf content = true
    · simp [h, (key content).mp h]
    · rw [if_neg h]
      constructor
      · intro h10; exact absurd h10 one_ne_zero
      · intro htake; exact absurd ((key content).mpr htake) h
  · intro htake
    rw [headerErrors_hpp]
    by_cases h : (hppHeader year filename).isPrefixOf content = true
    · exact absurd ((key content).mp h) htake
    · rw [if_neg h]
  · intro j c hj htake hne
    rw [headerErrors_hpp]
    have hlen : (hppHeader year filename).length ≤ content.length := by
      have := congrArg List.length htake
      simp only [List.length_take] at this
      omega
    have hjlen : j < content.length := lt_of_lt_of_le hj hlen
    by_cases h : (hppHeader year filename).isPrefixOf (content.set j c) = true
    · exfalso
      have hset : (content.set j c).take (hppHeader year filename).length =
          hppHeader year filename := (key _).mp h
      have h1 : (content.set j c)[j]? = some c := List.getElem?_set_self hjlen
      have h2 : ((content.set j c).take (hppHeader year filename).length)[j]? =
          (content.set j c)[j]? := List.getElem?_take_of_lt hj
      have h3 : (content.take (hppHeader year filename).length)[j]? = content[j]? :=
        List.getElem?_take_of_lt hj
      rw [hset] at h2
      rw [htake] at h3
      exact hne (h3 ▸ h2 ▸ h1)
    · rw [if_neg h]
  · intro content2 htake
    rw [headerErrors_hpp, headerErrors_hpp]
    have : (hppHeader year filename).isPrefixOf content =
        (hppHeader year filename).isPrefixOf content2 := by
      rw [Bool.eq_iff_iff]
      constructor
      · intro h; exact (key content2).mpr (htake ▸ (key content).mp h)
      · intro h; exact (key content).mpr (htake.symm ▸ (key content2).mp h)
    rw [this]

/-- Witness for C5: the banner for `Foo.hpp` in year 2026 passes, and changing
its first character yields exactly one diagnostic. -/
theorem c5_hpp_header_witness :
    headerErrors FileType.HPP (cs "Foo.hpp") 2026
      ((hppHeader 2026 (cs "Foo.hpp")).set 0 'X') = 1 :=
  (c5_hpp_header 2026 (cs "Foo.hpp") (hppHeader 2026 (cs "Foo.hpp"))).2.2.1 0 'X'
    (by decide) (by decide) (by decide)

/-! ## C6: the three-consecutive-newlines check -/

theorem findTripleNL_some (s : List Char) (i : Nat) (h : findTripleNL s = some i) :
    tripleNLAt s i ∧ ∀ j, j < i → ¬ tripleNLAt s j := by
  induction s generalizing i with
  | nil => simp [findTripleNL] at h
  | cons c t ih =>
    rw [findTripleNL] at h
    by_cases hp : (cs "\n\n\n").isPrefixOf (c :: t) = true
    · rw [if_pos hp] at h
      obtain rfl : i = 0 := by simpa using h.symm
      refine ⟨?_, fun j hj => absurd hj (Nat.not_lt_zero j)⟩
      show cs "\n\n\n" <+: (c :: t).drop 0
      simpa using List.isPrefixOf_iff_prefix.mp hp
    · rw [if_neg hp] at h
      obtain ⟨i', hi', rfl⟩ := Option.map_eq_some'.mp h
      obtain ⟨h1, h2⟩ := ih i' hi'
      refine ⟨h1, fun j hj => ?_⟩
      cases j with
      | zero =>
        intro hc
        exact hp ( List.isPrefixOf_iff_prefix.mpr (by simpa [tripleNLAt] using hc))
      | succ j' =>
        intro hc
        exact h2 j' (Nat.lt_of_succ_lt_succ hj) (by simpa [tripleNLAt] using hc)

theorem findTripleNL_none (s : List Char) (h : findTripleNL s = none) :
    ∀ j, ¬ tripleNLAt s j := by
  induction s with
  | nil =>
    intro j hc
    simp only [tripleNLAt, List.drop_nil] at hc
    have := hc.length_le
    simp [cs] at this
  | cons c t ih =>
    rw [findTripleNL] at h
    by_cases hp : (cs "\n\n\n").isPrefixOf (c :: t) = true
    · rw [if_pos hp] at h; exact absurd h (by simp)
    · rw [if_neg hp] at h
      have ht : findTripleNL t = none := by
        cases he : findTripleNL t with
        | none => rfl
        | some k => rw [he] at h; simp at h
      intro j hc
      cases j with
      | zero => exact hp ( List.isPrefixOf_iff_prefix.mpr (by simpa [tripleNLAt] using hc))
      | succ j' => exact ih ht j' (by simpa [tripleNLAt] using hc)

/-- C6: if the content contains `"\n\n\n"`, with first occurrence at index
`i`, the check emits exactly one diagnostic whose reported line number is the
count of newline characters before that occurrence plus one; content with no
occurrence yields no diagnostic. -/
theorem c6_blank_run (content : List Char) :
    (∀ i, tripleNLAt content i → (∀ j, j < i → ¬ tripleNLAt content j) →
      blankRun content = some ((content.take i).count '\n' + 1)
      ∧ blankRunErrors content = 1)
  ∧ ((∀ i, ¬ tripleNLAt content i) → blankRun content = none ∧ blankRunErrors content = 0) := by
  constructor
  · intro i hi hmin
    have hsub : hasSub (cs "\n\n\n") content = true :=
      (hasSub_iff_exists _ _).mpr ⟨i, hi⟩
    have hfind : findTripleNL content = some i := by
      cases he : findTripleNL content with
      | none => exact absurd hi (findTripleNL_none content he i)
      | some k =>
        obtain ⟨hk, hkmin⟩ := findTripleNL_some content k he
        have hki : ¬ k < i := fun hlt => hmin k hlt hk
        have hik : ¬ i < k := fun hlt => hkmin i hlt hi
        have : k = i := by omega
        rw [this]
    have hrun : blankRun content = some ((content.take i).count '\n' + 1) := by
      rw [blankRun, if_pos hsub, hfind]
    exact ⟨hrun, by rw [blankRunErrors, hrun]; rfl⟩
  · intro hnone
    have hsub : hasSub (cs "\n\n\n") content = false := by
      cases hs : hasSub (cs "\n\n\n") content with
      | false => rfl
      | true =>
        obtain ⟨i, hi⟩ := (hasSub_iff_exists _ _).mp hs
        exact absurd hi (hnone i)
    have hrun : blankRun content = none := by rw [blankRun, if_neg (by simp [hsub])]
    exact ⟨hrun, by rw [blankRunErrors, hrun]; rfl⟩

/-- Witness for C6: in `"a\nb\n\n\nc"` the first occurrence of three
consecutive newlines starts at index 3 and is reported at line 2. -/
theorem c6_blank_run_witness :
    blankRun (cs "a\nb\n\n\nc") = some 2 ∧ blankRunErrors (cs "a\nb\n\n\nc") = 1 :=
  (c6_blank_run (cs "a\nb\n\n\nc")).1 3 (by decide) (by decide)


/-! ## C7: the member-naming (`m_` + uppercase) rule -/

theorem breakMU_cons_of_found (pre : List Char) (rest : List Char)
    (h : hasSub (cs "m_") (pre ++ ['m']) = false) :
    breakMU (pre ++ 'm' :: '_' :: rest) = some (pre, rest) := by
  induction pre with
  | nil =>
    show breakMU ('m' :: '_' :: rest) = some ([], rest)
    rw [breakMU, if_pos (by exact ⟨rfl, rfl⟩)]
    rfl
  | cons a pre' ih =>
    show breakMU (a :: (pre' ++ 'm' :: '_' :: rest)) = some (a :: pre', rest)
    rw [breakMU]
    have hcond : ¬ (a = 'm' ∧ (pre' ++ 'm' :: '_' :: rest).head? = some '_') := by
      rintro ⟨rfl, hh⟩
      cases pre' with
      | nil => simp at hh
      | cons b pre'' =>
        simp only [List.cons_append, List.head?, Option.some.injEq] at hh
        subst hh
        simp [hasSub, List.isPrefixOf, cs] at h
    rw [if_neg hcond, ih (hasSub_cons_false h)]
    rfl

theorem breakMU_sound (s : List Char) (p q : List Char)
    (h : breakMU s = some (p, q)) : s = p ++ 'm' :: '_' :: q ∧ q.length < s.length := by
  induction s generalizing p q with
  | nil => simp [breakMU] at h
  | cons c t ih =>
    rw [breakMU] at h
    by_cases hc : c = 'm' ∧ t.head? = some '_'
    · rw [if_pos hc] at h
      obtain ⟨hc1, hc2⟩ := hc
      subst hc1
      obtain ⟨t', rfl⟩ := List.head?_eq_some_iff.mp hc2
      obtain ⟨rfl, rfl⟩ : ([] : List Char) = p ∧ t' = q := by simpa using h
      refine ⟨rfl, ?_⟩
      simp only [List.length_cons, List.nil_append]
      omega
    · rw [if_neg hc] at h
      obtain ⟨pq, hpq, hmap⟩ := Option.map_eq_some'.mp h
      obtain ⟨p', q'⟩ := pq
      cases hmap
      obtain ⟨ht, hlen⟩ := ih p' q' hpq
      constructor
      · rw [ht]
        rfl
      · simp only [List.length_cons]
        omega

theorem breakMU_none (s : List Char) (h : breakMU s = none) :
    hasSub (cs "m_") s = false := by
  induction s with
  | nil => rfl
  | cons c t ih =>
    rw [breakMU] at h
    by_cases hc : c = 'm' ∧ t.head? = some '_'
    · rw [if_pos hc] at h; exact absurd h (by simp)
    · rw [if_neg hc] at h
      have ht : breakMU t = none := by
        cases he : breakMU t with
        | none => rfl
        | some p => rw [he] at h; simp at h
      have hpre : (cs "m_").isPrefixOf (c :: t) = false := by
        cases hp : (cs "m_").isPrefixOf (c :: t) with
        | false => rfl
        | true =>
          exfalso
          obtain ⟨u, hu⟩ := List.isPrefixOf_iff_prefix.mp hp
          have hthis : c :: t = 'm' :: '_' :: u := hu.symm
          injection hthis with h1 h2
          exact hc ⟨h1, by rw [h2]; rfl⟩
      simp [hasSub, hpre, ih ht]

theorem splitMUFuel_mono (f1 : Nat) : ∀ (f2 : Nat) (s : List Char),
    s.length ≤ f1 → s.length ≤ f2 → splitMUFuel f1 s = splitMUFuel f2 s := by
  induction f1 with
  | zero =>
    intro f2 s h1 _
    obtain rfl : s = [] := List.length_eq_zero.mp (Nat.le_zero.mp h1)
    cases f2 with
    | zero => rfl
    | succ g => rfl
  | succ f ih =>
    intro f2 s h1 h2
    cases f2 with
    | zero =>
      obtain rfl : s = [] := List.length_eq_zero.mp (Nat.le_zero.mp h2)
      rfl
    | succ g =>
      rw [splitMUFuel, splitMUFuel]
      cases hb : breakMU s with
      | none => rfl
      | some pq =>
        obtain ⟨p, q⟩ := pq
        obtain ⟨_, hlen⟩ := breakMU_sound s p q hb
        show p :: splitMUFuel f q = p :: splitMUFuel g q
        rw [ih g q (by omega) (by omega)]

theorem splitMU_eq_cons (pre rest : List Char)
    (h : hasSub (cs "m_") (pre ++ ['m']) = false) :
    splitMU (pre ++ 'm' :: '_' :: rest) = pre :: splitMU rest := by
  have hlen : (pre ++ 'm' :: '_' :: rest).length = (pre.length + rest.length + 1) + 1 := by
    simp only [List.length_append, List.length_cons]
    omega
  rw [splitMU, hlen, splitMUFuel, breakMU_cons_of_found pre rest h]
  show pre :: splitMUFuel (pre.length + rest.length + 1) rest = pre :: splitMU rest
  rw [splitMU,
    splitMUFuel_mono (pre.length + rest.length + 1) rest.length rest (by omega) le_rfl]

theorem splitMU_head_cons (c : Char) (post : List Char)
    (h : ¬ (c = 'm' ∧ post.head? = some '_')) :
    ∃ t q, splitMU (c :: post) = (c :: t) :: q := by
  rw [splitMU]
  show ∃ t q, splitMUFuel (post.length + 1) (c :: post) = (c :: t) :: q
  rw [splitMUFuel]
  cases hb : breakMU (c :: post) with
  | none => exact ⟨post, [], rfl⟩
  | some pq =>
    obtain ⟨p, q'⟩ := pq
    obtain ⟨heq, _⟩ := breakMU_sound _ p q' hb
    cases p with
    | nil =>
      exfalso
      have hthis : c :: post = 'm' :: '_' :: q' := heq
      injection hthis with h1 h2
      exact h ⟨h1, by rw [h2]; rfl⟩
    | cons a p' =>
      have hthis : c :: post = a :: (p' ++ 'm' :: '_' :: q') := heq
      injection hthis with h1 h2
      subst h1
      exact ⟨p', splitMUFuel post.length q', rfl⟩

/-- C7, counterexample to the claim as stated: the line `"m_a m_B"` contains
the substring `"m_"` immediately followed by the uppercase letter `B`, yet the
member-naming rule emits no diagnostic (the source inspects only the character
after the *first* occurrence of `"m_"`, here the lowercase `a`). -/
theorem c7_counterexample :
    specMUOccurs (cs "m_a m_B") ∧ muRule (cs "m_a m_B") = some 0 :=
  ⟨⟨cs "m_a ", 'B', [], by decide, by decide⟩, by decide⟩

/-- C7, amended: the member-naming rule inspects only the first occurrence of
`"m_"` in the line.  For a line `pre ++ "m_" ++ c :: post` whose displayed
occurrence is the first (no occurrence of `"m_"` inside `pre ++ "m"`) and
whose split field after that occurrence is nonempty (`c :: post` does not
itself start with `"m_"`), the rule emits one diagnostic iff `c` is an
uppercase letter; a line not containing `"m_"` gets no diagnostic. -/
theorem c7_first_occurrence_rule :
    (∀ (pre : List Char) (c : Char) (post : List Char),
      hasSub (cs "m_") (pre ++ ['m']) = false →
      ¬ (c = 'm' ∧ post.head? = some '_') →
      muRule (pre ++ 'm' :: '_' :: c :: post) = some (if c.isUpper then 1 else 0))
  ∧ (∀ line, hasSub (cs "m_") line = false → muRule line = some 0) := by
  constructor
  · intro pre c post h1 h2
    have hsub : hasSub (cs "m_") (pre ++ 'm' :: '_' :: c :: post) = true := by
      refine (hasSub_iff_exists _ _).mpr ⟨pre.length, ?_⟩
      rw [List.drop_left]
      exact ⟨c :: post, rfl⟩
    obtain ⟨t, q, hsplit⟩ := splitMU_head_cons c post h2
    rw [muRule, if_pos hsub, splitMU_eq_cons pre (c :: post) h1, hsplit]
    rfl
  · intro line h
    rw [muRule, if_neg (by simp [h])]

/-- Witness for C7: the line `"x m_By"`, whose first `"m_"` is followed by the
uppercase `B`, gets exactly one diagnostic from the member-naming rule. -/
theorem c7_first_occurrence_rule_witness :
    muRule (cs "x " ++ 'm' :: '_' :: 'B' :: cs "y") = some 1 := by
  have h := c7_first_occurrence_rule.1 (cs "x ") 'B' (cs "y") (by decide) (by decide)
  simpa using h

/-! ## C9: the file-kind classifier -/

theorem pyEndsWith_iff_suffix (s suffix : List Char) :
    pyEndsWith s suffix = true ↔ suffix <:+ s := by
  rw [pyEndsWith, List.isSuffixOf_iff_suffix]

theorem not_suffix_of_suffix_excl {a b L : List Char} (ha : a <:+ L)
    (h1 : ¬ a <:+ b) (h2 : ¬ b <:+ a) : ¬ b <:+ L := fun hb =>
  (List.suffix_or_suffix_of_suffix ha hb).elim h1 h2

theorem pyEndsWith_false_of_suffix (b : List Char) {a L : List Char} (ha : a <:+ L)
    (h1 : ¬ a <:+ b) (h2 : ¬ b <:+ a) : pyEndsWith L b = false := by
  have hn : ¬ b <:+ L := not_suffix_of_suffix_excl ha h1 h2
  cases he : pyEndsWith L b with
  | false => rfl
  | true => exact absurd ((pyEndsWith_iff_suffix L b).mp he) hn

/-- C9: the classifier maps a path to a kind by case-insensitive extension
match — `.cpp`/`.cxx` to CSource, `.hpp` to CHeader, `.java` to Java,
`.kt`/`.kts` to Kotlin, `.xml` to Xml, `.swift` to Swift — and fails
(returns `none`, modelling the raised `ValueError`) on every path with none
of those extensions. -/
theorem c9_classifier (p : List Char) :
    ((cs ".cpp" <:+ pyLower p ∨ cs ".cxx" <:+ pyLower p) →
      get_file_type p = some FileType.CPP)
  ∧ (cs ".hpp" <:+ pyLower p → get_file_type p = some FileType.HPP)
  ∧ (cs ".java" <:+ pyLower p → get_file_type p = some FileType.JAVA)
  ∧ ((cs ".kt" <:+ pyLower p ∨ cs ".kts" <:+ pyLower p) →
      get_file_type p = some FileType.KOTLIN)
  ∧ (cs ".xml" <:+ pyLower p → get_file_type p = some FileType.XML)
  ∧ (cs ".swift" <:+ pyLower p → get_file_type p = some FileType.SWIFT)
  ∧ (¬ cs ".cpp" <:+ pyLower p → ¬ cs ".cxx" <:+ pyLower p →
     ¬ cs ".hpp" <:+ pyLower p → ¬ cs ".java" <:+ pyLower p →
     ¬ cs ".kt" <:+ pyLower p → ¬ cs ".kts" <:+ pyLower p →
     ¬ cs ".xml" <:+ pyLower p → ¬ cs ".swift" <:+ pyLower p →
      get_file_type p = none) := by
  refine ⟨?_, ?_, ?_, ?_, ?_, ?_, ?_⟩
  · rintro (h | h)
    · rw [get_file_type, if_pos (by simp [(pyEndsWith_iff_suffix _ _).mpr h])]
    · rw [get_file_type, if_pos (by simp [(pyEndsWith_iff_suffix _ _).mpr h])]
  · intro h
    rw [get_file_type,
      if_neg (by simp [pyEndsWith_false_of_suffix (cs ".cpp") h (by decide) (by decide),
        pyEndsWith_false_of_suffix (cs ".cxx") h (by decide) (by decide)]),
      if_pos (by simp [(pyEndsWith_iff_suffix _ _).mpr h])]
  · intro h
    rw [get_file_type,
      if_neg (by simp [pyEndsWith_false_of_suffix (cs ".cpp") h (by decide) (by decide),
        pyEndsWith_false_of_suffix (cs ".cxx") h (by decide) (by decide)]),
      if_neg (by simp [pyEndsWith_false_of_suffix (cs ".hpp") h (by decide) (by decide)]),
      if_pos (by simp [(pyEndsWith_iff_suffix _ _).mpr h])]
  · rintro (h | h) <;>
      rw [get_file_type,
        if_neg (by simp [pyEndsWith_false_of_suffix (cs ".cpp") h (by decide) (by decide),
          pyEndsWith_false_of_suffix (cs ".cxx") h (by decide) (by decide)]),
        if_neg (by simp [pyEndsWith_false_of_suffix (cs ".hpp") h (by decide) (by decide)]),
        if_neg (by simp [pyEndsWith_false_of_suffix (cs ".java") h (by decide) (by decide)]),
        if_pos (by simp [(pyEndsWith_iff_suffix _ _).mpr h])]
  · intro h
    rw [get_file_type,
      if_neg (by simp [pyEndsWith_false_of_suffix (cs ".cpp") h (by decide) (by decide),
        pyEndsWith_false_of_suffix (cs ".cxx") h (by decide) (by decide)]),
      if_neg (by simp [pyEndsWith_false_of_suffix (cs ".hpp") h (by decide) (by decide)]),
      if_neg (by simp [pyEndsWith_false_of_suffix (cs ".java") h (by decide) (by decide)]),
      if_neg (by simp [pyEndsWith_false_of_suffix (cs ".kt") h (by decide) (by decide),
        pyEndsWith_false_of_suffix (cs ".kts") h (by decide) (by decide)]),
      if_pos (by simp [(pyEndsWith_iff_suffix _ _).mpr h])]
  · intro h
    rw [get_file_type,
      if_neg (by simp [pyEndsWith_false_of_suffix (cs ".cpp") h (by decide) (by decide),
        pyEndsWith_false_of_suffix (cs ".cxx") h (by decide) (by decide)]),
      if_neg (by simp [pyEndsWith_false_of_suffix (cs ".hpp") h (by decide) (by decide)]),
      if_neg (by simp [pyEndsWith_false_of_suffix (cs ".java") h (by decide) (by decide)]),
      if_neg (by simp [pyEndsWith_false_of_suffix (cs ".kt") h (by decide) (by decide),
        pyEndsWith_false_of_suffix (cs ".kts") h (by decide) (by decide)]),
      if_neg (by simp [pyEndsWith_false_of_suffix (cs ".xml") h (by decide) (by decide)]),
      if_pos (by simp [(pyEndsWith_iff_suffix _ _).mpr h])]
  · intro h1 h2 h3 h4 h5 h6 h7 h8
    have e : ∀ b : List Char, ¬ b <:+ pyLower p → pyEndsWith (pyLower p) b = false := by
      intro b hb
      cases he : pyEndsWith (pyLower p) b with
      | false => rfl
      | true => exact absurd ((pyEndsWith_iff_suffix _ _).mp he) hb
    rw [get_file_type,
      if_neg (by simp [e _ h1, e _ h2]),
      if_neg (by simp [e _ h3]),
      if_neg (by simp [e _ h4]),
      if_neg (by simp [e _ h5, e _ h6]),
      if_neg (by simp [e _ h7]),
      if_neg (by simp [e _ h8])]

/-- Witness for C9: the path `dir/Foo.KT` is classified (case-insensitively)
as Kotlin. -/
theorem c9_classifier_witness : get_file_type (cs "dir/Foo.KT") = some FileType.KOTLIN :=
  (c9_classifier (cs "dir/Foo.KT")).2.2.2.1 (Or.inl (by decide))

/-! ## C10: Xml files get no copyright-header validation -/

/-- Spec-side: only the kind-ungated ("universal") line rules, in the order
the source evaluates them, for comparison with `lineErrors` at kind Xml. -/
def univLineErrors (disable_line_length_checks : Bool) (line : List Char) : Option Nat :=
  match muRule line with
  | none => none
  | some muCount => some (
      (if !disable_line_length_checks then (if line.length > 100 then 1 else 0) else 0)
    + (if line.contains '\t' then 1 else 0)
    + (if pyEndsWith line (cs " ") || pyEndsWith line (cs " \n") || pyEndsWith line (cs " \r")
        then 1 else 0)
    + muCount
    + (if hasSub (cs "namespace ") line && line.contains '\x7b' then 1 else 0)
    + (if hasSub (cs "\x7d; // namespace") line then 1 else 0)
    + (if hasSub (cs " ;") line then 1 else 0)
    + (if hasSub (cs "\x7delse") line then 1 else 0)
    + (if hasSub (cs "else\x7b") line then 1 else 0)
    + (if hasSub (cs " if(") line then 1 else 0)
    + (if hasSub (cs " for(") line then 1 else 0)
    + (if hasSub (cs " while(") line then 1 else 0)
    + (if hasSub (cs " switch(") line then 1 else 0))

/-- Spec-side: sum of the universal line rules over a list of lines. -/
def univSum (dis : Bool) : List (List Char) → Option Nat
  | [] => some 0
  | l :: ls =>
    match univLineErrors dis l, univSum dis ls with
    | some a, some b => some (a + b)
    | _, _ => none

theorem lineErrors_xml (dis : Bool) (line : List Char) :
    lineErrors FileType.XML dis line = univLineErrors dis line := by
  rw [lineErrors, univLineErrors]
  cases muRule line with
  | none => rfl
  | some muCount => simp [semicolonRule]

theorem lineErrorsSum_xml (dis : Bool) (ls : List (List Char)) :
    lineErrorsSum FileType.XML dis ls = univSum dis ls := by
  induction ls with
  | nil => rfl
  | cons l t ih => rw [lineErrorsSum, univSum, lineErrors_xml, ih]

/-- C10: for an Xml file the header stage emits zero diagnostics for every
content, every line is checked only against the kind-ungated rules, and the
per-file count is the filename-check count plus the universal line-rule sum
plus the trailing-newline and blank-line-run checks. -/
theorem c10_xml_no_header (filename : List Char) (year : Nat) (dis : Bool)
    (content : List Char) :
    headerErrors FileType.XML filename year content = 0
  ∧ (∀ line, lineErrors FileType.XML dis line = univLineErrors dis line)
  ∧ check_file FileType.XML filename year dis content =
      (univSum dis (splitLines content)).map
        (fun s => check_file_path filename + s + noNewlineErrors content
          + blankRunErrors content) := by
  have hheader : headerErrors FileType.XML filename year content = 0 := by
    simp [headerErrors]
  refine ⟨hheader, fun line => lineErrors_xml dis line, ?_⟩
  rw [check_file, lineErrorsSum_xml]
  cases univSum dis (splitLines content) with
  | none => rfl
  | some s =>
    rw [hheader]
    show some (check_file_path filename + s + noNewlineErrors content
      + blankRunErrors content + 0) = _
    rw [Nat.add_zero]
    rfl
